import Mathlib

/-!
Shallow embedding of the data-synchronization engine of the
spotify-release-list-v2 repository, together with proofs checking the
natural-language specification against the code.

Conventions used throughout:

* JavaScript numbers are modelled as exact rationals (`ℚ`); the affinity
  arithmetic of the source only adds, multiplies and compares small decimal
  constants, so its intended semantics is the exact one.
* A JavaScript object used as a string-keyed map is modelled as an
  association list `List (String × α)`; property assignment appends the
  pair and lookup takes the last binding for a key (`objGet`), which is
  observationally the JS behaviour (later assignments win).
* JavaScript string comparison (`<` on strings, used for the ISO release
  dates) is code-unit lexicographic order; `jsStrLt` implements it on the
  character lists of the two strings.
* `String.prototype.toLowerCase` is modelled for the ASCII range by
  `jsToLower`.
-/

/-! ## JavaScript primitives -/

/-- Code-unit comparison of two characters, as JS `<` compares strings. -/
def jsCharLt (a b : Char) : Bool := a.val < b.val

/-- Lexicographic comparison of character lists. -/
def jsStrLtAux : List Char → List Char → Bool
  | [], [] => false
  | [], _ :: _ => true
  | _ :: _, [] => false
  | x :: xs, y :: ys =>
    if jsCharLt x y then true
    else if jsCharLt y x then false
    else jsStrLtAux xs ys

/-- JS string comparison `a < b` (code-unit lexicographic order). -/
def jsStrLt (a b : String) : Bool := jsStrLtAux a.data b.data

/-- JS string comparison `a <= b`, i.e. `!(b < a)`. -/
def jsStrLe (a b : String) : Bool := !(jsStrLt b a)

/-- ASCII lower-casing of one character. -/
def lowerChar (c : Char) : Char :=
  if 'A' ≤ c ∧ c ≤ 'Z' then Char.ofNat (c.toNat + 32) else c

/-- ASCII model of `String.prototype.toLowerCase`. -/
def jsToLower (s : String) : String := ⟨s.data.map lowerChar⟩

/-- Lookup in an object modelled as an assignment list: the last binding
for the key wins, as for JS property assignment. -/
def objGet {α : Type} (m : List (String × α)) (k : String) : Option α :=
  (m.reverse.find? (fun e => e.1 = k)).map (fun e => e.2)

/-- Lookup with a default, modelling the pervasive `map[k] || 0` idiom
(for the `ℚ`-valued maps of the source a missing key and a stored `0`
both yield the default `0`, exactly as `|| 0` does). -/
def objGetD {α : Type} (m : List (String × α)) (k : String) (d : α) : α :=
  (objGet m k).getD d

/-! ## Rate-limit-aware transport (`request` in the api module)

The fetch transport is modelled by the finite list of responses the
network will give to the successive attempts of one logical request.
`none` as overall result means the trace was exhausted while the code was
still retrying (the real code would keep re-issuing the request).  The
outcome records the total milliseconds slept and every payload that was
put on the wire, so that theorems can speak about the retried requests
being identical. -/

/-- The immutable payload of one request (endpoint, method, headers, body). -/
structure RequestPayload where
  endpoint : String
  method : String
  headers : List (String × String)
  body : Option String
  deriving DecidableEq

/-- One HTTP response as the transport wrapper distinguishes them:
2xx with a parsed body, 429 with a `Retry-After` value, or any other
non-2xx status whose JSON body may or may not carry `error.message`. -/
inductive HttpResp (T : Type) where
  | ok (body : T)
  | tooManyRequests (retryAfter : Nat)
  | fail (status : Nat) (errorMessage : Option String)

/-- The typed error thrown for non-2xx, non-429 responses. -/
structure FetchError where
  status : Nat
  message : String
  deriving DecidableEq

/-- Result of running `request` against a response trace. -/
structure RequestOutcome (T : Type) where
  result : Except FetchError T
  sleptMs : Nat
  issued : List RequestPayload

/-- The `request` wrapper of the api module: return the body on 2xx; on
429 sleep `(retryAfter + 1) * 1000` ms and re-issue the same payload; on
any other failure throw `FetchError` with the status and the message
extracted from the body (falling back to `HTTP Error <status>`). -/
def request {T : Type} (payload : RequestPayload) :
    List (HttpResp T) → Nat → List RequestPayload → Option (RequestOutcome T)
  | [], _, _ => none
  | .ok body :: _, slept, issued => some ⟨.ok body, slept, issued ++ [payload]⟩
  | .tooManyRequests retryAfter :: rest, slept, issued =>
    request payload rest (slept + (retryAfter + 1) * 1000) (issued ++ [payload])
  | .fail status errorMessage :: _, slept, issued =>
    some ⟨.error ⟨status, errorMessage.getD ("HTTP Error " ++ toString status)⟩,
      slept, issued ++ [payload]⟩

/-- Run `request` from the initial state (nothing slept, nothing issued). -/
def requestRun {T : Type} (payload : RequestPayload) (responses : List (HttpResp T)) :
    Option (RequestOutcome T) :=
  request payload responses 0 []

/-! ## Outer retry wrapper (`syncSaga` in sagas/sync.js) -/

/-- Maximum number of retry attempts for failed sync runs. -/
def MAX_RETRY_ATTEMPTS : Nat := 3

/-- Observable outcome of one `syncSaga` invocation. -/
structure SyncSagaResult where
  succeeded : Bool
  errorMessagesShown : Nat
  syncErrorEmitted : Bool
  retryDelaysMs : List Nat
  deriving DecidableEq

/-- The retry loop of `syncSaga`: attempt the full run; on success return;
on failure with `retryCount` already at the maximum show one error message
and emit the error state; otherwise bump `retryCount` and wait
`2000 * retryCount` ms before the next attempt.  `attemptOk n` tells
whether the attempt made with `retryCount = n` succeeds.  The fuel equals
the number of loop iterations still allowed by `retryCount ≤ MAX`; the
initial call supplies enough for every reachable iteration. -/
def syncSagaGo (attemptOk : Nat → Bool) : Nat → Nat → List Nat → SyncSagaResult
  | 0, _, delays => ⟨false, 0, false, delays⟩
  | fuel + 1, retryCount, delays =>
    if attemptOk retryCount then ⟨true, 0, false, delays⟩
    else if MAX_RETRY_ATTEMPTS ≤ retryCount then ⟨false, 1, true, delays⟩
    else syncSagaGo attemptOk fuel (retryCount + 1) (delays ++ [2000 * (retryCount + 1)])

/-- The outer retry wrapper `syncSaga`. -/
def syncSaga (attemptOk : Nat → Bool) : SyncSagaResult :=
  syncSagaGo attemptOk (MAX_RETRY_ATTEMPTS + 1) 0 []

/-! ## Data model (helpers module) -/

/-- An artist record as built by `buildArtist`. -/
structure Artist where
  id : String
  name : String
  deriving DecidableEq

/-- The album-group enumeration.  Modelled from the spec: the fixed
role-priority enumeration (`AlbumGroup` / `AlbumGroupIndex` live in the
`enums` module, which is not part of the provided sources; the spec calls
it "a fixed role-priority enumeration" over the four Spotify album
groups). -/
inductive AlbumGroup where
  | album
  | single
  | compilation
  | appears_on
  deriving DecidableEq

/-- Modelled from the spec: the priority index of each album group in the
fixed role-priority enumeration. -/
def AlbumGroupIndex : AlbumGroup → Nat
  | .album => 0
  | .single => 1
  | .compilation => 2
  | .appears_on => 3

/-- A raw album as produced by `buildAlbumRaw`: the role map `artistIds`
associates each album group with the artist ids discovered under it. -/
structure AlbumRaw where
  id : String
  name : String
  image : Option String
  albumArtists : List Artist
  releaseDate : String
  artistIds : List (AlbumGroup × List String)
  totalTracks : Nat
  deriving DecidableEq

/-- A canonical album as produced by `buildAlbum`. -/
structure Album where
  id : String
  name : String
  image : Option String
  releaseDate : String
  totalTracks : Nat
  artists : List (AlbumGroup × List Artist)
  otherArtists : List Artist
  deriving DecidableEq

/-! ## Merge / dedup engine (`merge`, `mergeAlbumsRaw` in helpers) -/

/-- The `merge` helper: lodash `mergeWith` with a customizer that
concatenates array values.  Keys already in `object` keep their position
and get their lists concatenated with the matching list of `source`
(if any); keys only in `source` are appended in `source` order. -/
def merge (object source : List (AlbumGroup × List String)) :
    List (AlbumGroup × List String) :=
  object.map (fun e => (e.1, e.2 ++ (((source.find? (fun s => s.1 = e.1)).map Prod.snd).getD [])))
    ++ source.filter (fun s => ¬ object.any (fun e => e.1 = s.1))

/-- One step of the `mergeAlbumsRaw` fold: skip albums outside the date
window; merge the role map into the existing entry when the id is already
present; otherwise insert the album. -/
def mergeAlbumsRawStep (minDate maxDate : String) (map : List AlbumRaw) (album : AlbumRaw) :
    List AlbumRaw :=
  if jsStrLt album.releaseDate minDate || jsStrLt maxDate album.releaseDate then map
  else if map.any (fun b => b.id = album.id) then
    map.map (fun b =>
      if b.id = album.id then { b with artistIds := merge b.artistIds album.artistIds } else b)
  else map ++ [album]

/-- `mergeAlbumsRaw`: fold the raw albums into an id-keyed map (modelled
as an insertion-ordered list) and return its values.  The code computes
`maxDate` as "tomorrow" via the external moment library
(`moment().add(1, 'day').format(ISO_DATE)`); it is taken here as a
parameter since the clock is outside the program. -/
def mergeAlbumsRaw (albumsRaw : List AlbumRaw) (minDate maxDate : String) : List AlbumRaw :=
  albumsRaw.foldl (mergeAlbumsRawStep minDate maxDate) []

/-! ## Canonicalization (`buildAlbum` in helpers) -/

instance : IsTotal (AlbumGroup × List String)
    (fun e1 e2 => AlbumGroupIndex e1.1 ≤ AlbumGroupIndex e2.1) :=
  ⟨fun a b => Nat.le_total (AlbumGroupIndex a.1) (AlbumGroupIndex b.1)⟩

instance : IsTrans (AlbumGroup × List String)
    (fun e1 e2 => AlbumGroupIndex e1.1 ≤ AlbumGroupIndex e2.1) :=
  ⟨fun _ _ _ h1 h2 => Nat.le_trans h1 h2⟩

instance : IsTotal Artist (fun a1 a2 => a1.name ≤ a2.name) :=
  ⟨fun a b => le_total a.name b.name⟩

instance : IsTrans Artist (fun a1 a2 => a1.name ≤ a2.name) :=
  ⟨fun _ _ _ h1 h2 => le_trans h1 h2⟩

/-- `buildAlbum`: order the role map by the fixed role priority, resolve
each artist id through `artistsMap` and order the artists of each role
alphabetically by name, and put every album artist whose id was not
captured by any role list into `otherArtists`.  The lodash `orderBy`
(a stable comparison sort) is modelled by `List.insertionSort`.
`artistsMap` is the id-keyed artist map built by `buildAlbumsMap`,
modelled as a total function. -/
def buildAlbum (albumRaw : AlbumRaw) (artistsMap : String → Artist) : Album :=
  let artistIdsArray := (albumRaw.artistIds.map Prod.snd).flatten
  let artistIdsEntries := List.insertionSort
    (fun e1 e2 => AlbumGroupIndex e1.1 ≤ AlbumGroupIndex e2.1) albumRaw.artistIds
  let artistsEntries := artistIdsEntries.map (fun e =>
    (e.1, List.insertionSort (fun a1 a2 => a1.name ≤ a2.name) (e.2.map artistsMap)))
  { id := albumRaw.id
    name := albumRaw.name
    image := albumRaw.image
    releaseDate := albumRaw.releaseDate
    totalTracks := albumRaw.totalTracks
    artists := artistsEntries
    otherArtists := albumRaw.albumArtists.filter (fun artist => artist.id ∉ artistIdsArray) }

/-! ## Album affinity (`calculateAlbumAffinity` in helpers) -/

/-- All artists credited on an album:
`Object.values(album.artists).flat().concat(album.otherArtists)`. -/
def albumAllArtists (album : Album) : List Artist :=
  (album.artists.map Prod.snd).flatten ++ album.otherArtists

/-- `calculateAlbumAffinity`: look up every credited artist in the
affinity map, keep the strictly positive scores, take their maximum, add
a `+5` collaboration bonus when more than one artist scored, and cap the
result at 100. -/
def calculateAlbumAffinity (album : Album) (artistAffinity : List (String × ℚ)) : ℚ :=
  let allArtists := albumAllArtists album
  if allArtists.isEmpty then 0
  else
    match (allArtists.map (fun artist => objGetD artistAffinity artist.id 0)).filter
        (fun s => 0 < s) with
    | [] => 0
    | s :: rest =>
      min 100 (rest.foldl max s + (if 1 < (s :: rest).length then (5 : ℚ) else 0))

/-- The aggregate score exactly as the specification words it: the maximum
of the contributors' blended scores, plus a fixed `+5` bonus exactly when
more than one contributor has a nonzero score, capped at 100. -/
def claimedAlbumAggregate (scores : List ℚ) : ℚ :=
  min 100 (scores.foldl max 0 + (if 1 < (scores.filter (fun s => s ≠ 0)).length then (5 : ℚ) else 0))

/-! ## Blended artist affinity (`ArtistAffinityCalculator` in the api module) -/

/-- The calculator state: the Spotify affinity map (keyed by artist id)
and the Last.fm affinity map (keyed by lower-cased artist name). -/
structure ArtistAffinityCalculator where
  spotifyAffinity : List (String × ℚ)
  lastFmAffinityMap : List (String × ℚ)

/-- `getAffinityScore`: blend `0.6 * spotify + 0.4 * lastFm` when both
scores are positive, otherwise return whichever score is available
(`Math.max` of the two defaulted lookups). -/
def ArtistAffinityCalculator.getAffinityScore (c : ArtistAffinityCalculator)
    (spotifyArtistId artistName : String) : ℚ :=
  let spotifyScore := objGetD c.spotifyAffinity spotifyArtistId 0
  let lastFmScore := objGetD c.lastFmAffinityMap (jsToLower artistName) 0
  if 0 < spotifyScore ∧ 0 < lastFmScore then
    spotifyScore * (6 / 10) + lastFmScore * (4 / 10)
  else max spotifyScore lastFmScore

/-! ## Extended top artists (`getUserTopArtistsExtended` / `getUserTopArtistsCombined`)

The Spotify `me/top/artists` endpoint is modelled by the function
`items : Nat → Option (List String)` giving, for each offset, the artist
ids of the returned page (`none` models a failed fetch, which the code
catches and turns into an early end of the loop).  Artists are identified
by their ids. -/

/-- Accumulated result of one ranking window. -/
structure TopArtistsResult where
  artists : List String
  affinity : List (String × ℚ)

/-- The affinity assignments made while processing one page: the artist at
global position `offset + index` gets score `max(1, 100 - position / 5)`. -/
def affinityOfPage (offset : Nat) (page : List String) : List (String × ℚ) :=
  (page.enumFrom offset).map (fun pa => (pa.2, max 1 (100 - (pa.1 : ℚ) / 5)))

/-- The paging loop of `getUserTopArtistsExtended`: fetch pages of up to
50 artists while `offset < 500`, stopping early on a failed fetch, an
empty page, or a short page.  The fuel bounds the number of iterations;
since a non-final iteration advances `offset` by at least one, 500 units
suffice for every reachable iteration. -/
def topArtistsLoop (items : Nat → Option (List String)) :
    Nat → Nat → List String → List (String × ℚ) → TopArtistsResult
  | 0, _, artists, affinity => ⟨artists, affinity⟩
  | fuel + 1, offset, artists, affinity =>
    if offset < 500 then
      match items offset with
      | none => ⟨artists, affinity⟩
      | some page =>
        if page.isEmpty then ⟨artists, affinity⟩
        else if page.length < 50 then ⟨artists ++ page, affinity ++ affinityOfPage offset page⟩
        else topArtistsLoop items fuel (offset + page.length)
          (artists ++ page) (affinity ++ affinityOfPage offset page)
    else ⟨artists, affinity⟩

/-- `getUserTopArtistsExtended` for one ranking window. -/
def getUserTopArtistsExtended (items : Nat → Option (List String)) : TopArtistsResult :=
  topArtistsLoop items 500 0 [] []

/-- The specification's per-window scoring rule: the contributor at
position `p` of the window is mapped to `max(1, 100 - p / 5)`. -/
def positionScores (artists : List String) : List (String × ℚ) :=
  artists.enum.map (fun pa => (pa.2, max 1 (100 - (pa.1 : ℚ) / 5)))

/-- `getUserTopArtistsCombined`: run the medium-term and long-term
windows, combine their affinity maps over the union of their keys with
weights `0.7` (medium) and `0.3` (long), and deduplicate the artist
lists (medium first).  The JS `Set` keeps first-insertion order while
`List.dedup` keeps another duplicate-free enumeration of the same keys;
only the resulting map, not its key order, is observable through lookups. -/
def getUserTopArtistsCombined (mediumItems longItems : Nat → Option (List String)) :
    TopArtistsResult :=
  let mediumTerm := getUserTopArtistsExtended mediumItems
  let longTerm := getUserTopArtistsExtended longItems
  let allArtistIds := (mediumTerm.affinity.map Prod.fst ++ longTerm.affinity.map Prod.fst).dedup
  let combinedAffinity := allArtistIds.map (fun artistId =>
    (artistId, objGetD mediumTerm.affinity artistId 0 * (7 / 10)
      + objGetD longTerm.affinity artistId 0 * (3 / 10)))
  ⟨(mediumTerm.artists ++ longTerm.artists).dedup, combinedAffinity⟩

/-! ## Last.fm top artists (`LastFmApi.getUserTopArtists`) -/

/-- What the Last.fm endpoint can do for one call, as the code
distinguishes the cases: the fetch or the JSON parse throws, the parsed
body carries `data.error` (with `data.message`), or it succeeds and
`data.topartists?.artist` is present or absent. -/
inductive LastFmResponse (A : Type) where
  | networkFailure (errorMessage : String)
  | apiError (message : String)
  | success (artists : Option (List A))

/-- The body of the `try` block of `getUserTopArtists`: throw on a
network/parse failure, throw `Last.fm API error: <message>` when the body
reports an error, otherwise return `data.topartists?.artist || []`. -/
def lastFmGetUserTopArtistsBody {A : Type}
    (server : String → String → Nat → LastFmResponse A)
    (username period : String) (limit : Nat) : Except String (List A) :=
  match server username period limit with
  | .networkFailure errorMessage => .error errorMessage
  | .apiError message => .error ("Last.fm API error: " ++ message)
  | .success artists => .ok (artists.getD [])

/-- `LastFmApi.getUserTopArtists` with its `catch`: any thrown error is
logged and an empty list is returned instead. -/
def lastFmGetUserTopArtists {A : Type}
    (server : String → String → Nat → LastFmResponse A)
    (username period : String) (limit : Nat) : Except String (List A) :=
  match lastFmGetUserTopArtistsBody server username period limit with
  | .ok artists => .ok artists
  | .error _ => .ok []

/-! ## Progress emissions of one sync run (`syncMainSaga` and its helpers)

The numeric progress values put to the progress sink (`setSyncStage` and
`setSyncingProgress` actions) are collected, in emission order, as a list
of rationals.  `nArtists` is the number of artists fanned out over in
`syncBaseData`; `nChunks` the number of 20-id album chunks fanned out over
in `syncExtraData`. -/

/-- Progress values emitted by `syncBaseData`: one per processed artist
response, `25 + ((fetched + 1) / nArtists) * (maxProgress - 25)` with
`maxProgress` 70 when the extra-data stage will run and 90 otherwise. -/
def syncBaseDataEmissions (fullAlbumData : Bool) (nArtists : Nat) : List ℚ :=
  let maxProgress : ℚ := if fullAlbumData then 70 else 90
  (List.range nArtists).map (fun (fetched : ℕ) =>
    25 + (((fetched : ℚ) + 1) / (nArtists : ℚ)) * (maxProgress - 25))

/-- Progress values emitted by `syncExtraData`: one per processed chunk,
`70 + ((fetched + 1) / nChunks) * (90 - 70)`. -/
def syncExtraDataEmissions (nChunks : Nat) : List ℚ :=
  (List.range nChunks).map (fun (fetched : ℕ) =>
    70 + (((fetched : ℚ) + 1) / (nChunks : ℚ)) * (90 - 70))

/-- The full sequence of numeric progress values emitted by one successful
`syncMainSaga` run, following its control flow: the fixed stage
announcements, the per-artist fan-out, the optional extra-data stage, the
optional recommendation and history stages, and the final `100`
emissions.  `lastFmOn` stands for the conjunction
`lastFmEnabled && lastFmApiKey && lastFmUsername && lastFmSyncEnabled`. -/
def syncMainEmissions (fullAlbumData enableSmartSort lastFmOn trackHistory : Bool)
    (nArtists nChunks : Nat) : List ℚ :=
  [0, 5, 10]
    ++ (if enableSmartSort then [15] else [])
    ++ (if lastFmOn then [20] else [])
    ++ [25]
    ++ syncBaseDataEmissions fullAlbumData nArtists
    ++ [70]
    ++ (if fullAlbumData then [75] ++ syncExtraDataEmissions nChunks else [])
    ++ (if enableSmartSort || lastFmOn then [90] else [])
    ++ (if trackHistory then [95] else [])
    ++ [100, 100]

/-! ## Concrete fixtures used by witnesses, examples and counterexamples -/

/-- A contributor scored 60 in the affinity fixture. -/
def artistScored60 : Artist := ⟨"a1", "Artist A"⟩

/-- A contributor scored 10 in the affinity fixture. -/
def artistScored10 : Artist := ⟨"a2", "Artist B"⟩

/-- An album credited to the two scored contributors. -/
def albumTwoScored : Album :=
  ⟨"al1", "Album", none, "2025-10-01", 10, [(.album, [artistScored60, artistScored10])], []⟩

/-- Affinity map giving the two contributors 60 and 10. -/
def affinitySixtyTen : List (String × ℚ) := [("a1", 60), ("a2", 10)]

/-- Calculator with only a Spotify score of 80 for artist id `a`. -/
def calcSpotifyOnly : ArtistAffinityCalculator := ⟨[("a", 80)], []⟩

/-- Calculator with a Spotify score of 80 and a Last.fm score of 50. -/
def calcBoth : ArtistAffinityCalculator := ⟨[("a", 80)], [("x", 50)]⟩

/-- A server for the top-artists endpoint that always returns no items. -/
def itemsNone : Nat → Option (List String) := fun _ => some []

/-- Lookback boundary used in the date-window fixture. -/
def minDateFx : String := "2025-09-11"

/-- The "tomorrow" boundary used in the date-window fixture (run start
2025-10-11). -/
def maxDateFx : String := "2025-10-12"

/-- An album released exactly on the lookback boundary. -/
def albumOnMinDate : AlbumRaw :=
  ⟨"m1", "On min", none, [], "2025-09-11", [(.album, ["x1"])], 1⟩

/-- An album released one day before the lookback boundary. -/
def albumBeforeMin : AlbumRaw :=
  ⟨"m2", "Before min", none, [], "2025-09-10", [(.album, ["x2"])], 1⟩

/-- An album released "tomorrow" relative to run start. -/
def albumTomorrow : AlbumRaw :=
  ⟨"m3", "Tomorrow", none, [], "2025-10-12", [(.album, ["x3"])], 1⟩

/-- An album released two days after run start. -/
def albumTwoAhead : AlbumRaw :=
  ⟨"m4", "Two ahead", none, [], "2025-10-13", [(.album, ["x4"])], 1⟩

/-- The raw album used for the self-merge counterexample: one role, one
contributor. -/
def albumSelf : AlbumRaw :=
  ⟨"s1", "Self", none, [⟨"c1", "C"⟩], "2025-01-02", [(.album, ["c1"])], 1⟩

/-- A raw album exercising role ordering, name ordering and overflow
attribution in `buildAlbum`. -/
def rawForBuild : AlbumRaw :=
  ⟨"b1", "Build", none, [⟨"z1", "z1"⟩, ⟨"a1", "a1"⟩], "2025-03-01",
    [(.single, ["b2"]), (.album, ["a1"])], 4⟩

/-- The identity-shaped artists map used with `rawForBuild`. -/
def amapIdentity : String → Artist := fun artistId => ⟨artistId, artistId⟩

/-- Attempt profile that fails twice and succeeds on the third attempt. -/
def attemptsThird : Nat → Bool := fun n => n == 2

/-- Attempt profile that always fails. -/
def attemptsNever : Nat → Bool := fun _ => false

/-- A Last.fm server double that always fails at the network level. -/
def lastFmServerDown : String → String → Nat → LastFmResponse String :=
  fun _ _ _ => .networkFailure "fetch failed"

/-! ## Theorems -/

/-- Auxiliary: running `request` against any number of 429 responses
followed by a success accumulates the mandated sleeps and re-issues the
identical payload each time. -/
theorem request_tooMany_run {T : Type} (payload : RequestPayload) (body : T) :
    ∀ (delays : List Nat) (slept : Nat) (issued : List RequestPayload),
      request payload (delays.map HttpResp.tooManyRequests ++ [HttpResp.ok body]) slept issued =
        some ⟨.ok body, slept + (delays.map (fun d => (d + 1) * 1000)).sum,
          issued ++ List.replicate (delays.length + 1) payload⟩ := by
  intro delays
  induction delays with
  | nil => intro slept issued; simp [request]
  | cons d ds ih =>
    intro slept issued
    simp only [List.map_cons, List.cons_append, request, List.append_eq, ih,
      List.sum_cons, List.length_cons, List.replicate_succ, Option.some.injEq,
      RequestOutcome.mk.injEq, List.append_assoc, List.singleton_append,
      true_and, and_true]
    constructor
    · omega
    · rfl

/-- C1: a request answered by any number of 429 responses (each carrying
a `Retry-After` value `d`) and then a 2xx response sleeps `(d + 1)`
seconds per 429, re-issues the identical payload each time with no bound
on the number of retries, and surfaces the final body as a plain success;
any other non-2xx response raises a `FetchError` carrying the HTTP status
and the message extracted from the response body (with the
`HTTP Error <status>` fallback when the body carries none). -/
theorem c1_transport_rate_limit (T : Type) :
    ∀ (payload : RequestPayload) (delays : List Nat) (body : T)
      (status : Nat) (message : String) (rest : List (HttpResp T)),
      requestRun payload (delays.map HttpResp.tooManyRequests ++ [HttpResp.ok body]) =
        some ⟨.ok body, (delays.map (fun d => (d + 1) * 1000)).sum,
          List.replicate (delays.length + 1) payload⟩
      ∧ requestRun payload (HttpResp.fail status (some message) :: rest) =
        some ⟨.error ⟨status, message⟩, 0, [payload]⟩
      ∧ requestRun payload (HttpResp.fail status none :: rest) =
        some ⟨.error ⟨status, "HTTP Error " ++ toString status⟩, 0, [payload]⟩ := by
  intro payload delays body status message rest
  refine ⟨?_, ?_, ?_⟩
  · simpa using request_tooMany_run payload body delays 0 []
  · simp [requestRun, request]
  · simp [requestRun, request]

/-- C2: the outer retry wrapper re-runs the whole sync on failure with
delays `2000 * attemptNumber` ms between attempts; a run failing twice
and succeeding on the third attempt ends as a success with no
user-visible error, while a run failing on every attempt shows exactly
one error message and ends in the error state (after the three retry
delays 2000, 4000, 6000 ms). -/
theorem c2_outer_retry (attemptOk : Nat → Bool) :
    (attemptOk 0 = false → attemptOk 1 = false → attemptOk 2 = true →
      syncSaga attemptOk = ⟨true, 0, false, [2000, 4000]⟩)
    ∧ ((∀ n, attemptOk n = false) →
      syncSaga attemptOk = ⟨false, 1, true, [2000, 4000, 6000]⟩) := by
  constructor
  · intro h0 h1 h2
    simp [syncSaga, MAX_RETRY_ATTEMPTS, syncSagaGo, h0, h1, h2]
  · intro h
    simp [syncSaga, MAX_RETRY_ATTEMPTS, syncSagaGo, h]

/-- Witness for C2: the concrete fails-twice-then-succeeds and
always-fails attempt profiles. -/
theorem c2_outer_retry_witness :
    syncSaga attemptsThird = ⟨true, 0, false, [2000, 4000]⟩
    ∧ syncSaga attemptsNever = ⟨false, 1, true, [2000, 4000, 6000]⟩ :=
  ⟨(c2_outer_retry attemptsThird).1 rfl rfl rfl,
    (c2_outer_retry attemptsNever).2 (fun _ => rfl)⟩

/-- Auxiliary: a key absent from the key list of an object looks up to
nothing. -/
theorem objGet_eq_none_of_not_mem {α : Type} (m : List (String × α)) (k : String)
    (h : k ∉ m.map Prod.fst) : objGet m k = none := by
  unfold objGet
  rw [List.find?_eq_none.mpr, Option.map_none']
  intro x hx
  simp only [decide_eq_true_eq]
  intro hxk
  exact h (List.mem_map.mpr ⟨x, List.mem_reverse.mp hx, hxk⟩)

/-- Auxiliary: `find?` over a list of pairs built from a key list. -/
theorem find?_map_pair (keys : List String) (v : String → ℚ) (k : String) :
    (keys.map (fun x => (x, v x))).find? (fun e => e.1 = k) =
      if k ∈ keys then some (k, v k) else none := by
  induction keys with
  | nil => simp
  | cons x xs ih =>
    by_cases hx : x = k
    · subst hx
      simp [List.find?_cons]
    · have hx' : ¬(k = x) := fun h => hx h.symm
      simp [List.find?_cons, hx, hx', ih]

/-- Auxiliary: lookup in an object built by mapping a value function over
a key list. -/
theorem objGet_map_pair (keys : List String) (v : String → ℚ) (k : String) :
    objGet (keys.map (fun x => (x, v x))) k = if k ∈ keys then some (v k) else none := by
  unfold objGet
  rw [← List.map_reverse, find?_map_pair]
  by_cases hk : k ∈ keys <;> simp [hk]

/-- Auxiliary: over nonnegative values and a nonnegative seed, dropping
the non-positive entries does not change a running maximum. -/
theorem foldl_max_filter_pos :
    ∀ (l : List ℚ) (seed : ℚ), 0 ≤ seed → (∀ x ∈ l, 0 ≤ x) →
      (l.filter (fun s => 0 < s)).foldl max seed = l.foldl max seed := by
  intro l
  induction l with
  | nil => intro seed _ _; rfl
  | cons x xs ih =>
    intro seed hseed h
    have hx : 0 ≤ x := h x (List.mem_cons_self x xs)
    by_cases hpos : 0 < x
    · rw [List.filter_cons_of_pos (by simpa using hpos), List.foldl_cons, List.foldl_cons]
      exact ih (max seed x) (le_max_of_le_left hseed)
        (fun y hy => h y (List.mem_cons_of_mem x hy))
    · have hx0 : x = 0 := le_antisymm (not_lt.mp hpos) hx
      subst hx0
      rw [List.filter_cons_of_neg (by simp), List.foldl_cons, max_eq_left hseed]
      exact ih seed hseed (fun y hy => h y (List.mem_cons_of_mem 0 hy))

/-- Auxiliary: over nonnegative values, "strictly positive" and "nonzero"
select the same entries. -/
theorem filter_pos_eq_filter_ne (l : List ℚ) (h : ∀ x ∈ l, 0 ≤ x) :
    l.filter (fun s => 0 < s) = l.filter (fun s => s ≠ 0) := by
  apply List.filter_congr
  intro x hx
  have h0 : 0 ≤ x := h x hx
  simp only [decide_eq_decide]
  constructor
  · intro hpos; exact ne_of_gt hpos
  · intro hne; exact lt_of_le_of_ne h0 (Ne.symm hne)

/-- C3: for nonnegative per-contributor scores, the album's aggregate
affinity is exactly the maximum of the contributors' scores, plus the
fixed `+5` bonus exactly when more than one contributor has a nonzero
score, capped at 100; in particular two scored contributors 60 and 10
yield `min(100, 60 + 5) = 65`. -/
theorem c3_album_aggregate :
    (∀ (album : Album) (artistAffinity : List (String × ℚ)),
      (∀ a ∈ albumAllArtists album, 0 ≤ objGetD artistAffinity a.id 0) →
      calculateAlbumAffinity album artistAffinity =
        claimedAlbumAggregate
          ((albumAllArtists album).map (fun a => objGetD artistAffinity a.id 0)))
    ∧ calculateAlbumAffinity albumTwoScored affinitySixtyTen = 65 := by
  constructor
  · intro album aff h
    by_cases hemp : (albumAllArtists album).isEmpty
    · have hnil : albumAllArtists album = [] := List.isEmpty_iff.mp hemp
      simp [calculateAlbumAffinity, hnil, claimedAlbumAggregate]
    · have hnn : ∀ x ∈ (albumAllArtists album).map (fun a => objGetD aff a.id 0), 0 ≤ x := by
        intro x hx
        rcases List.mem_map.mp hx with ⟨a, ha, rfl⟩
        exact h a ha
      rcases hfp : ((albumAllArtists album).map (fun a => objGetD aff a.id 0)).filter
          (fun s => 0 < s) with _ | ⟨s, rest⟩
      · have hall : ((albumAllArtists album).map (fun a => objGetD aff a.id 0)).foldl max 0 = 0 := by
          rw [← foldl_max_filter_pos _ 0 le_rfl hnn, hfp]
          rfl
        have hne : ((albumAllArtists album).map (fun a => objGetD aff a.id 0)).filter
            (fun s => s ≠ 0) = [] := by
          rw [← filter_pos_eq_filter_ne _ hnn, hfp]
        simp only [decide_not] at hne
        simp [calculateAlbumAffinity, hemp, hfp, claimedAlbumAggregate, hall, hne]
      · have hs : s ∈ ((albumAllArtists album).map (fun a => objGetD aff a.id 0)).filter
            (fun s => 0 < s) := by
          rw [hfp]; exact List.mem_cons_self s rest
        have hspos : 0 < s := by simpa using (List.mem_filter.mp hs).2
        have hmax : ((albumAllArtists album).map (fun a => objGetD aff a.id 0)).foldl max 0 =
            rest.foldl max s := by
          rw [← foldl_max_filter_pos _ 0 le_rfl hnn, hfp, List.foldl_cons, max_eq_right hspos.le]
        have hne : ((albumAllArtists album).map (fun a => objGetD aff a.id 0)).filter
            (fun s => s ≠ 0) = s :: rest := by
          rw [← filter_pos_eq_filter_ne _ hnn, hfp]
        simp only [decide_not] at hne
        have hcond : (1 < (((albumAllArtists album).map (fun a => objGetD aff a.id 0)).filter
            (fun s => !decide (s = 0))).length) ↔ 0 < rest.length := by
          rw [hne]
          simp only [List.length_cons]
          omega
        simp [calculateAlbumAffinity, hemp, hfp, claimedAlbumAggregate, hmax, hcond]
  · have h : calculateAlbumAffinity albumTwoScored affinitySixtyTen =
        min 100 (List.foldl max (60 : ℚ) [(10 : ℚ)] + 5) := rfl
    rw [h]
    norm_num [List.foldl, min_def, max_def]

/-- Witness for C3: the aggregate rule applied to the concrete
two-contributor album, whose scores are nonnegative. -/
theorem c3_album_aggregate_witness :
    calculateAlbumAffinity albumTwoScored affinitySixtyTen =
      claimedAlbumAggregate
        ((albumAllArtists albumTwoScored).map (fun a => objGetD affinitySixtyTen a.id 0)) :=
  c3_album_aggregate.1 albumTwoScored affinitySixtyTen (by
    intro a ha
    rw [show albumAllArtists albumTwoScored = [artistScored60, artistScored10] from rfl] at ha
    simp only [List.mem_cons, List.mem_singleton, List.not_mem_nil, or_false] at ha
    rcases ha with rfl | rfl
    · rw [show objGetD affinitySixtyTen artistScored60.id 0 = 60 from rfl]; norm_num
    · rw [show objGetD affinitySixtyTen artistScored10.id 0 = 10 from rfl]; norm_num)

/-- C4: the blended per-contributor score is `0.6 * spotify + 0.4 * lastFm`
when both scores are positive; equal to the one positive score when only
one of them is positive; and `0` when neither source has the contributor.
In particular a Spotify-only score of 80 blends to 80, and 80 with a
Last.fm score of 50 blends to 68. -/
theorem c4_blended_affinity :
    (∀ (c : ArtistAffinityCalculator) (spotifyArtistId artistName : String),
      (0 < objGetD c.spotifyAffinity spotifyArtistId 0 →
        0 < objGetD c.lastFmAffinityMap (jsToLower artistName) 0 →
        c.getAffinityScore spotifyArtistId artistName =
          objGetD c.spotifyAffinity spotifyArtistId 0 * (6 / 10)
            + objGetD c.lastFmAffinityMap (jsToLower artistName) 0 * (4 / 10))
      ∧ (0 < objGetD c.spotifyAffinity spotifyArtistId 0 →
        objGetD c.lastFmAffinityMap (jsToLower artistName) 0 ≤ 0 →
        c.getAffinityScore spotifyArtistId artistName =
          objGetD c.spotifyAffinity spotifyArtistId 0)
      ∧ (0 < objGetD c.lastFmAffinityMap (jsToLower artistName) 0 →
        objGetD c.spotifyAffinity spotifyArtistId 0 ≤ 0 →
        c.getAffinityScore spotifyArtistId artistName =
          objGetD c.lastFmAffinityMap (jsToLower artistName) 0)
      ∧ (objGet c.spotifyAffinity spotifyArtistId = none →
        objGet c.lastFmAffinityMap (jsToLower artistName) = none →
        c.getAffinityScore spotifyArtistId artistName = 0))
    ∧ calcSpotifyOnly.getAffinityScore "a" "x" = 80
    ∧ calcBoth.getAffinityScore "a" "x" = 68 := by
  refine ⟨fun c spotifyArtistId artistName => ⟨?_, ?_, ?_, ?_⟩, ?_, ?_⟩
  · intro hs hl
    simp [ArtistAffinityCalculator.getAffinityScore, hs, hl]
  · intro hs hl
    have hcond : ¬(0 < objGetD c.spotifyAffinity spotifyArtistId 0 ∧
        0 < objGetD c.lastFmAffinityMap (jsToLower artistName) 0) := by
      intro hc
      exact absurd hc.2 (not_lt.mpr hl)
    simp [ArtistAffinityCalculator.getAffinityScore, hcond, max_eq_left (hl.trans hs.le)]
  · intro hl hs
    have hcond : ¬(0 < objGetD c.spotifyAffinity spotifyArtistId 0 ∧
        0 < objGetD c.lastFmAffinityMap (jsToLower artistName) 0) := by
      intro hc
      exact absurd hc.1 (not_lt.mpr hs)
    simp [ArtistAffinityCalculator.getAffinityScore, hcond, max_eq_right (hs.trans hl.le)]
  · intro hs hl
    simp [ArtistAffinityCalculator.getAffinityScore, objGetD, hs, hl]
  · have h : calcSpotifyOnly.getAffinityScore "a" "x" = max (80 : ℚ) 0 := rfl
    rw [h]
    norm_num
  · have h : calcBoth.getAffinityScore "a" "x" =
        (if 0 < (80 : ℚ) ∧ 0 < (50 : ℚ) then (80 : ℚ) * (6 / 10) + (50 : ℚ) * (4 / 10)
          else max 80 50) := rfl
    rw [h]
    norm_num

/-- Witness for C4: the blend rule instantiated at the concrete calculator
holding a Spotify score of 80 and a Last.fm score of 50. -/
theorem c4_blended_affinity_witness :
    calcBoth.getAffinityScore "a" "x" =
      objGetD calcBoth.spotifyAffinity "a" 0 * (6 / 10)
        + objGetD calcBoth.lastFmAffinityMap (jsToLower "x") 0 * (4 / 10) :=
  (c4_blended_affinity.1 calcBoth "a" "x").1
    (by rw [show objGetD calcBoth.spotifyAffinity "a" 0 = 80 from rfl]; norm_num)
    (by rw [show objGetD calcBoth.lastFmAffinityMap (jsToLower "x") 0 = 50 from rfl]; norm_num)

/-- C10: the Last.fm top-artists fetch never propagates an error to its
caller: it always returns a list, and on an API-reported error, a
network/parse failure, or an absent artist list it returns the empty
list, so an outage is indistinguishable from an empty listening history. -/
theorem c10_lastfm_top_artists_total (A : Type)
    (server : String → String → Nat → LastFmResponse A)
    (username period : String) (limit : Nat) :
    (∃ artists, lastFmGetUserTopArtists server username period limit = .ok artists)
    ∧ (∀ m, server username period limit = .networkFailure m →
      lastFmGetUserTopArtists server username period limit = .ok [])
    ∧ (∀ m, server username period limit = .apiError m →
      lastFmGetUserTopArtists server username period limit = .ok [])
    ∧ (server username period limit = .success none →
      lastFmGetUserTopArtists server username period limit = .ok [])
    ∧ (∀ m, lastFmGetUserTopArtists (A := A) (fun _ _ _ => .networkFailure m)
        username period limit =
      lastFmGetUserTopArtists (fun _ _ _ => .success (some [])) username period limit) := by
  refine ⟨?_, ?_, ?_, ?_, ?_⟩
  · rcases hr : server username period limit with m | m | artists <;>
      simp [lastFmGetUserTopArtists, lastFmGetUserTopArtistsBody, hr]
  · intro m hm
    simp [lastFmGetUserTopArtists, lastFmGetUserTopArtistsBody, hm]
  · intro m hm
    simp [lastFmGetUserTopArtists, lastFmGetUserTopArtistsBody, hm]
  · intro hm
    simp [lastFmGetUserTopArtists, lastFmGetUserTopArtistsBody, hm]
  · intro m
    simp [lastFmGetUserTopArtists, lastFmGetUserTopArtistsBody]

/-- Witness for C10: the always-down server double yields the empty list. -/
theorem c10_lastfm_top_artists_total_witness :
    lastFmGetUserTopArtists lastFmServerDown "listener" "overall" 500 = .ok [] :=
  (c10_lastfm_top_artists_total String lastFmServerDown "listener" "overall" 500).2.1
    "fetch failed" rfl

/-- Auxiliary: one merge step only produces albums whose release date lies
in the window. -/
theorem mergeStep_window (minDate maxDate : String) (acc : List AlbumRaw) (album : AlbumRaw)
    (h : ∀ b ∈ acc, jsStrLt b.releaseDate minDate = false ∧ jsStrLt maxDate b.releaseDate = false) :
    ∀ b ∈ mergeAlbumsRawStep minDate maxDate acc album,
      jsStrLt b.releaseDate minDate = false ∧ jsStrLt maxDate b.releaseDate = false := by
  intro b hb
  unfold mergeAlbumsRawStep at hb
  by_cases hskip : (jsStrLt album.releaseDate minDate || jsStrLt maxDate album.releaseDate) = true
  · rw [if_pos hskip] at hb
    exact h b hb
  · rw [if_neg hskip] at hb
    rcases Bool.or_eq_false_iff.mp (Bool.not_eq_true _ ▸ hskip : _ = false) with ⟨h1, h2⟩
    by_cases hany : acc.any (fun b => b.id = album.id) = true
    · rw [if_pos hany] at hb
      rcases List.mem_map.mp hb with ⟨orig, horig, rfl⟩
      by_cases hid : orig.id = album.id <;> simp [hid] <;> exact h orig horig
    · rw [if_neg hany] at hb
      rcases List.mem_append.mp hb with hmem | hmem
      · exact h b hmem
      · rcases List.mem_singleton.mp hmem with rfl
        exact ⟨h1, h2⟩

/-- Auxiliary: the merge fold only produces albums in the window. -/
theorem mergeFold_window (minDate maxDate : String) :
    ∀ (albums : List AlbumRaw) (acc : List AlbumRaw),
      (∀ b ∈ acc, jsStrLt b.releaseDate minDate = false ∧ jsStrLt maxDate b.releaseDate = false) →
      ∀ b ∈ albums.foldl (mergeAlbumsRawStep minDate maxDate) acc,
        jsStrLt b.releaseDate minDate = false ∧ jsStrLt maxDate b.releaseDate = false := by
  intro albums
  induction albums with
  | nil => intro acc hacc; exact hacc
  | cons x xs ih =>
    intro acc hacc
    exact ih _ (mergeStep_window minDate maxDate acc x hacc)

/-- Auxiliary: a merge step keeps every id already present. -/
theorem mergeStep_keeps_id (minDate maxDate : String) (acc : List AlbumRaw) (album : AlbumRaw)
    (i : String) (h : ∃ b ∈ acc, b.id = i) :
    ∃ b ∈ mergeAlbumsRawStep minDate maxDate acc album, b.id = i := by
  rcases h with ⟨b, hb, hbi⟩
  unfold mergeAlbumsRawStep
  by_cases hskip : (jsStrLt album.releaseDate minDate || jsStrLt maxDate album.releaseDate) = true
  · rw [if_pos hskip]; exact ⟨b, hb, hbi⟩
  · rw [if_neg hskip]
    by_cases hany : acc.any (fun b => b.id = album.id) = true
    · rw [if_pos hany]
      by_cases hid : b.id = album.id
      · exact ⟨{ b with artistIds := merge b.artistIds album.artistIds },
          List.mem_map.mpr ⟨b, hb, by simp [hid]⟩, hbi⟩
      · exact ⟨b, List.mem_map.mpr ⟨b, hb, by simp [hid]⟩, hbi⟩
    · rw [if_neg hany]
      exact ⟨b, List.mem_append.mpr (Or.inl hb), hbi⟩

/-- Auxiliary: a merge step of an in-window album makes its id present. -/
theorem mergeStep_adds_id (minDate maxDate : String) (acc : List AlbumRaw) (album : AlbumRaw)
    (h1 : jsStrLt album.releaseDate minDate = false)
    (h2 : jsStrLt maxDate album.releaseDate = false) :
    ∃ b ∈ mergeAlbumsRawStep minDate maxDate acc album, b.id = album.id := by
  unfold mergeAlbumsRawStep
  rw [if_neg (by simp [h1, h2])]
  by_cases hany : acc.any (fun b => b.id = album.id) = true
  · rw [if_pos hany]
    rcases List.any_eq_true.mp hany with ⟨b, hb, hbi⟩
    have hbi' : b.id = album.id := by simpa using hbi
    exact ⟨{ b with artistIds := merge b.artistIds album.artistIds },
      List.mem_map.mpr ⟨b, hb, by simp [hbi']⟩, hbi'⟩
  · rw [if_neg hany]
    exact ⟨album, List.mem_append.mpr (Or.inr (List.mem_singleton.mpr rfl)), rfl⟩

/-- Auxiliary: the merge fold keeps every id already present. -/
theorem mergeFold_keeps_id (minDate maxDate : String) :
    ∀ (albums : List AlbumRaw) (acc : List AlbumRaw) (i : String),
      (∃ b ∈ acc, b.id = i) →
      ∃ b ∈ albums.foldl (mergeAlbumsRawStep minDate maxDate) acc, b.id = i := by
  intro albums
  induction albums with
  | nil => intro acc i h; exact h
  | cons x xs ih =>
    intro acc i h
    exact ih _ i (mergeStep_keeps_id minDate maxDate acc x i h)

/-- Auxiliary: every in-window member of the input list leaves its id in
the fold result, whatever the accumulator. -/
theorem mergeFold_complete (minDate maxDate : String) :
    ∀ (albums : List AlbumRaw) (acc : List AlbumRaw) (a : AlbumRaw),
      a ∈ albums → jsStrLt a.releaseDate minDate = false →
      jsStrLt maxDate a.releaseDate = false →
      ∃ b ∈ albums.foldl (mergeAlbumsRawStep minDate maxDate) acc, b.id = a.id := by
  intro albums
  induction albums with
  | nil => intro acc a ha; exact absurd ha (List.not_mem_nil a)
  | cons x xs ih =>
    intro acc a ha h1 h2
    rcases List.mem_cons.mp ha with rfl | ha'
    · exact mergeFold_keeps_id minDate maxDate xs _ a.id
        (mergeStep_adds_id minDate maxDate acc a h1 h2)
    · exact ih _ a ha' h1 h2

/-- C6: after merging, an entity is kept exactly when its release date
lies in the inclusive window `[minDate, maxDate]`: every produced entry
is dated inside the window, every in-window input id survives, and on the
concrete fixture the entity dated exactly `minDate` and the one dated
"tomorrow" are kept while the one dated the day before `minDate` and the
one dated two days ahead are dropped. -/
theorem c6_date_window :
    (∀ (albums : List AlbumRaw) (minDate maxDate : String),
      ∀ b ∈ mergeAlbumsRaw albums minDate maxDate,
        jsStrLt b.releaseDate minDate = false ∧ jsStrLt maxDate b.releaseDate = false)
    ∧ (∀ (albums : List AlbumRaw) (minDate maxDate : String) (a : AlbumRaw),
      a ∈ albums → jsStrLt a.releaseDate minDate = false →
      jsStrLt maxDate a.releaseDate = false →
      ∃ b ∈ mergeAlbumsRaw albums minDate maxDate, b.id = a.id)
    ∧ mergeAlbumsRaw [albumOnMinDate, albumBeforeMin, albumTomorrow, albumTwoAhead]
        minDateFx maxDateFx = [albumOnMinDate, albumTomorrow] := by
  refine ⟨?_, ?_, by decide⟩
  · intro albums minDate maxDate
    exact mergeFold_window minDate maxDate albums [] (by simp)
  · intro albums minDate maxDate a ha h1 h2
    exact mergeFold_complete minDate maxDate albums [] a ha h1 h2

/-- Witness for C6: membership and window facts instantiated on the
concrete fixture. -/
theorem c6_date_window_witness :
    jsStrLt albumOnMinDate.releaseDate minDateFx = false
    ∧ jsStrLt maxDateFx albumOnMinDate.releaseDate = false :=
  c6_date_window.1 [albumOnMinDate, albumBeforeMin, albumTomorrow, albumTwoAhead]
    minDateFx maxDateFx albumOnMinDate (by decide)

/-- Auxiliary: merging role maps with disjoint role sets concatenates
them with no data loss. -/
theorem merge_disjoint (object source : List (AlbumGroup × List String))
    (h : ∀ e ∈ object, ∀ e2 ∈ source, e.1 ≠ e2.1) :
    merge object source = object ++ source := by
  unfold merge
  have hmap : object.map
      (fun e => (e.1, e.2 ++ (((source.find? (fun s => s.1 = e.1)).map Prod.snd).getD []))) =
      object := by
    have hcong : ∀ e ∈ object,
        (e.1, e.2 ++ (((source.find? (fun s => s.1 = e.1)).map Prod.snd).getD [])) = e := by
      intro e he
      have hfind : source.find? (fun s => s.1 = e.1) = none := by
        rw [List.find?_eq_none]
        intro e2 he2
        simp only [decide_eq_true_eq]
        exact fun hk => h e he e2 he2 hk.symm
      simp [hfind]
    rw [List.map_congr_left hcong]
    simp
  have hfil : source.filter (fun s => ¬ object.any (fun e => e.1 = s.1)) = source := by
    rw [List.filter_eq_self]
    intro e2 he2
    simp only [decide_eq_true_eq, List.any_eq_true, not_exists, not_and, decide_not,
      Bool.not_eq_false']
    intro e he
    exact h e he e2 he2
  rw [hmap, hfil]

/-- C7 counterexample: merging an entity with itself is not idempotent —
the contributor list of the shared role is concatenated, so the single
contributor appears twice instead of once. -/
theorem c7_merge_idempotence_counterexample :
    ¬ mergeAlbumsRaw [albumSelf, albumSelf] "2025-01-01" "2025-01-03" =
      mergeAlbumsRaw [albumSelf] "2025-01-01" "2025-01-03" := by
  decide

/-- C7 (amended): merging two raw entities with the same canonical
identity and disjoint roles yields one entry carrying the union of both
role maps with no data loss; merging an entity with itself concatenates
the shared role's contributor list (the contributor is listed twice), so
the merge is not idempotent. -/
theorem c7_merge_union (a b : AlbumRaw) (minDate maxDate : String) (g : AlbumGroup)
    (contributor : String) :
    (a.id = b.id →
      jsStrLt a.releaseDate minDate = false → jsStrLt maxDate a.releaseDate = false →
      jsStrLt b.releaseDate minDate = false → jsStrLt maxDate b.releaseDate = false →
      (∀ e ∈ a.artistIds, ∀ e2 ∈ b.artistIds, e.1 ≠ e2.1) →
      mergeAlbumsRaw [a, b] minDate maxDate =
        [{ a with artistIds := a.artistIds ++ b.artistIds }])
    ∧ (jsStrLt a.releaseDate minDate = false → jsStrLt maxDate a.releaseDate = false →
      a.artistIds = [(g, [contributor])] →
      mergeAlbumsRaw [a, a] minDate maxDate =
        [{ a with artistIds := [(g, [contributor, contributor])] }]) := by
  constructor
  · intro hid ha1 ha2 hb1 hb2 hdisj
    unfold mergeAlbumsRaw
    simp only [List.foldl_cons, List.foldl_nil]
    rw [show mergeAlbumsRawStep minDate maxDate [] a = [a] by
      unfold mergeAlbumsRawStep; simp [ha1, ha2]]
    unfold mergeAlbumsRawStep
    rw [if_neg (by simp [hb1, hb2])]
    rw [if_pos (by simp [hid])]
    simp only [List.map_cons, List.map_nil, if_pos hid]
    rw [merge_disjoint a.artistIds b.artistIds hdisj]
  · intro ha1 ha2 hids
    unfold mergeAlbumsRaw
    simp only [List.foldl_cons, List.foldl_nil]
    rw [show mergeAlbumsRawStep minDate maxDate [] a = [a] by
      unfold mergeAlbumsRawStep; simp [ha1, ha2]]
    unfold mergeAlbumsRawStep
    rw [if_neg (by simp [ha1, ha2])]
    rw [if_pos (by simp)]
    simp only [List.map_cons, List.map_nil, if_pos rfl]
    rw [hids]
    simp [merge, List.find?]

/-- Witness for C7: the self-merge concatenation instantiated on the
concrete one-role, one-contributor album. -/
theorem c7_merge_union_witness :
    mergeAlbumsRaw [albumSelf, albumSelf] "2025-01-01" "2025-01-03" =
      [{ albumSelf with artistIds := [(AlbumGroup.album, ["c1", "c1"])] }] :=
  (c7_merge_union albumSelf albumSelf "2025-01-01" "2025-01-03" AlbumGroup.album "c1").2
    (by decide) (by decide) rfl

/-- Auxiliary: appending a page extends the position-score list with the
page's scores starting at the offset equal to the previous length. -/
theorem positionScores_append (xs page : List String) :
    positionScores (xs ++ page) = positionScores xs ++ affinityOfPage xs.length page := by
  unfold positionScores affinityOfPage
  rw [List.enum_append, List.map_append]

/-- Auxiliary: throughout the paging loop the affinity assignments are
exactly the position scores of the artists collected so far. -/
theorem topArtistsLoop_affinity (items : Nat → Option (List String)) :
    ∀ (fuel offset : Nat) (artists : List String) (affinity : List (String × ℚ)),
      offset = artists.length → affinity = positionScores artists →
      (topArtistsLoop items fuel offset artists affinity).affinity =
        positionScores ((topArtistsLoop items fuel offset artists affinity).artists) := by
  intro fuel
  induction fuel with
  | zero =>
    intro offset artists affinity _ haff
    simpa [topArtistsLoop] using haff
  | succ fuel ih =>
    intro offset artists affinity hoff haff
    simp only [topArtistsLoop]
    split
    · split
      · simpa using haff
      · split
        · simpa using haff
        · split
          · rename_i page heq hemp hshort
            subst haff hoff
            exact (positionScores_append artists page).symm
          · rename_i page heq hemp hshort
            refine ih (offset + page.length) (artists ++ page)
              (affinity ++ affinityOfPage offset page) ?_ ?_
            · rw [List.length_append, hoff]
            · rw [haff, hoff, positionScores_append]
    · simpa using haff

/-- Auxiliary: when every page carries at most 50 items (the request
limit), the paging loop collects at most `max offset 500` artists. -/
theorem topArtistsLoop_length (items : Nat → Option (List String))
    (hpage : ∀ o p, items o = some p → p.length ≤ 50) :
    ∀ (fuel offset : Nat) (artists : List String) (affinity : List (String × ℚ)),
      artists.length = offset → 50 ∣ offset →
      (topArtistsLoop items fuel offset artists affinity).artists.length ≤ max offset 500 := by
  intro fuel
  induction fuel with
  | zero =>
    intro offset artists affinity hoff _
    simp only [topArtistsLoop]
    exact hoff.le.trans (le_max_left offset 500)
  | succ fuel ih =>
    intro offset artists affinity hoff hdvd
    simp only [topArtistsLoop]
    split
    · rename_i h500
      split
      · exact hoff.le.trans (le_max_left offset 500)
      · rename_i page heq
        have hlen : page.length ≤ 50 := hpage offset page heq
        split
        · exact hoff.le.trans (le_max_left offset 500)
        · split
          · rename_i hemp hshort
            have hofflt : offset ≤ 450 := by omega
            have hbound : offset + page.length ≤ 500 := by omega
            simp only [List.length_append, hoff]
            exact le_trans hbound (le_max_right offset 500)
          · rename_i hemp hshort
            have h50 : page.length = 50 := by omega
            have hrec := ih (offset + page.length) (artists ++ page)
              (affinity ++ affinityOfPage offset page)
              (by rw [List.length_append, hoff]) (by rw [h50]; omega)
            have hle : offset + page.length ≤ 500 := by omega
            rw [max_eq_right hle] at hrec
            exact le_trans hrec (le_max_right offset 500)
    · exact hoff.le.trans (le_max_left offset 500)

/-- Auxiliary: the combined affinity map looks up to the `0.7 / 0.3`
weighting of the two window maps, for every artist id. -/
theorem combined_affinity_lookup (mediumItems longItems : Nat → Option (List String))
    (artistId : String) :
    objGetD (getUserTopArtistsCombined mediumItems longItems).affinity artistId 0 =
      objGetD (getUserTopArtistsExtended mediumItems).affinity artistId 0 * (7 / 10)
        + objGetD (getUserTopArtistsExtended longItems).affinity artistId 0 * (3 / 10) := by
  simp only [getUserTopArtistsCombined]
  set m := getUserTopArtistsExtended mediumItems with hm
  set l := getUserTopArtistsExtended longItems with hl
  set keys := (m.affinity.map Prod.fst ++ l.affinity.map Prod.fst).dedup with hkeys
  rw [objGetD, objGet_map_pair]
  by_cases hmem : artistId ∈ keys
  · rw [if_pos hmem]
    rfl
  · rw [if_neg hmem]
    have hnm : artistId ∉ m.affinity.map Prod.fst := by
      intro hc
      exact hmem (List.mem_dedup.mpr (List.mem_append.mpr (Or.inl hc)))
    have hnl : artistId ∉ l.affinity.map Prod.fst := by
      intro hc
      exact hmem (List.mem_dedup.mpr (List.mem_append.mpr (Or.inr hc)))
    rw [show objGetD m.affinity artistId 0 = 0 by
        rw [objGetD, objGet_eq_none_of_not_mem m.affinity artistId hnm]; rfl,
      show objGetD l.affinity artistId 0 = 0 by
        rw [objGetD, objGet_eq_none_of_not_mem l.affinity artistId hnl]; rfl]
    norm_num

/-- C5: each ranking window holds at most 500 contributors (for pages
respecting the request limit of 50); within a window the contributor at
position `p` is scored `max(1, 100 - p / 5)`; and the combined map
weights the medium-term window by `0.7` and the long-term window by
`0.3`, a missing window contributing `0`. -/
theorem c5_primary_ranking_windows :
    ∀ (items mediumItems longItems : Nat → Option (List String)),
      ((∀ o p, items o = some p → p.length ≤ 50) →
        (getUserTopArtistsExtended items).artists.length ≤ 500)
      ∧ (getUserTopArtistsExtended items).affinity =
          positionScores (getUserTopArtistsExtended items).artists
      ∧ (∀ artistId,
          objGetD (getUserTopArtistsCombined mediumItems longItems).affinity artistId 0 =
            objGetD (getUserTopArtistsExtended mediumItems).affinity artistId 0 * (7 / 10)
              + objGetD (getUserTopArtistsExtended longItems).affinity artistId 0 * (3 / 10)) := by
  intro items mediumItems longItems
  refine ⟨?_, ?_, ?_⟩
  · intro hpage
    simpa using topArtistsLoop_length items hpage 500 0 [] [] rfl ⟨0, rfl⟩
  · exact topArtistsLoop_affinity items 500 0 [] [] rfl rfl
  · exact combined_affinity_lookup mediumItems longItems

/-- Witness for C5: the window bound instantiated on the empty server. -/
theorem c5_primary_ranking_windows_witness :
    (getUserTopArtistsExtended itemsNone).artists.length ≤ 500 :=
  (c5_primary_ranking_windows itemsNone itemsNone itemsNone).1 (by
    intro o p hp
    simp only [itemsNone, Option.some.injEq] at hp
    rw [← hp]
    decide)

/-- Auxiliary: a linear progress ramp `c + ((k + 1) / n) * w` over
`k < n` is non-decreasing for nonnegative `w`. -/
theorem rampChain (c w : ℚ) (hw : 0 ≤ w) (n : Nat) :
    List.Chain' (· ≤ ·) ((List.range n).map (fun (k : ℕ) => c + (((k : ℚ) + 1) / (n : ℚ)) * w)) := by
  cases n with
  | zero => simp
  | succ m =>
    rw [List.chain'_map, List.chain'_range_succ]
    intro k hk
    have hpos : (0:ℚ) < ((m:ℚ) + 1) := by positivity
    push_cast
    gcongr
    linarith

/-- Auxiliary: the first value of a nonempty progress ramp. -/
theorem rampHead (c w : ℚ) (n : Nat) :
    ∀ y ∈ ((List.range n).map (fun (k : ℕ) => c + (((k : ℚ) + 1) / (n : ℚ)) * w)).head?,
      y = c + (1 / (n : ℚ)) * w := by
  cases n with
  | zero => simp
  | succ m =>
    rw [List.range_succ_eq_map]
    intro y hy
    simp only [List.map_cons, List.head?_cons, Option.mem_def, Option.some.injEq] at hy
    rw [← hy]
    norm_num

/-- Auxiliary: the final value of a nonempty progress ramp is `c + w`. -/
theorem rampLast (c w : ℚ) (n : Nat) :
    ∀ x ∈ ((List.range n).map (fun (k : ℕ) => c + (((k : ℚ) + 1) / (n : ℚ)) * w)).getLast?,
      x = c + w := by
  cases n with
  | zero => simp
  | succ m =>
    rw [List.range_succ, List.map_append]
    intro x hx
    simp only [List.map_cons, List.map_nil, List.getLast?_concat, Option.mem_def,
      Option.some.injEq] at hx
    rw [← hx]
    have hne : ((m:ℚ) + 1) ≠ 0 := by positivity
    push_cast
    rw [div_self hne, one_mul]

/-- C8 (amended): with every optional stage enabled the emitted progress
sequence ends at 100, and it is non-decreasing provided the extra-data
stage fans out over at most 4 chunks of album ids (at most 80 albums);
with 5 or more chunks the 75% stage announcement precedes per-chunk
values below 75, breaking monotonicity. -/
theorem c8_progress_monotonicity (nArtists nChunks : Nat) (h4 : nChunks ≤ 4) :
    List.Chain' (· ≤ ·) (syncMainEmissions true true true true nArtists nChunks)
    ∧ (syncMainEmissions true true true true nArtists nChunks).getLast? = some 100 := by
  have hbase : syncBaseDataEmissions true nArtists =
      (List.range nArtists).map
        (fun (k : ℕ) => (25:ℚ) + (((k : ℚ) + 1) / (nArtists : ℚ)) * ((70:ℚ) - 25)) := rfl
  have hextra : syncExtraDataEmissions nChunks =
      (List.range nChunks).map
        (fun (k : ℕ) => (70:ℚ) + (((k : ℚ) + 1) / (nChunks : ℚ)) * ((90:ℚ) - 70)) := rfl
  have hE : syncMainEmissions true true true true nArtists nChunks =
      0 :: 5 :: 10 :: 15 :: 20 :: 25 ::
        (syncBaseDataEmissions true nArtists ++
          70 :: 75 :: (syncExtraDataEmissions nChunks ++ [90, 95, 100, 100])) := by
    simp [syncMainEmissions]
  constructor
  · rw [hE, hbase, hextra]
    simp only [List.chain'_cons]
    refine ⟨by norm_num, by norm_num, by norm_num, by norm_num, by norm_num, ?_⟩
    apply List.chain'_cons'.mpr
    constructor
    · intro y hy
      rw [List.head?_append] at hy
      rcases hh : ((List.range nArtists).map
          (fun (k : ℕ) => (25:ℚ) + (((k : ℚ) + 1) / (nArtists : ℚ)) * ((70:ℚ) - 25))).head? with _ | z
      · rw [hh] at hy
        simp only [Option.or, List.head?_cons, Option.mem_def, Option.some.injEq] at hy
        rw [← hy]
        norm_num
      · rw [hh] at hy
        simp only [Option.or, Option.mem_def, Option.some.injEq] at hy
        have hz := rampHead 25 ((70:ℚ) - 25) nArtists z (by rw [hh]; rfl)
        rw [← hy, hz]
        have : (0:ℚ) ≤ 1 / (nArtists : ℚ) * ((70:ℚ) - 25) := by positivity
        linarith
    · apply List.chain'_append.mpr
      refine ⟨rampChain 25 ((70:ℚ) - 25) (by norm_num) nArtists, ?_, ?_⟩
      · apply List.chain'_cons.mpr
        refine ⟨by norm_num, ?_⟩
        apply List.chain'_cons'.mpr
        constructor
        · intro y hy
          rw [List.head?_append] at hy
          rcases hh : ((List.range nChunks).map
              (fun (k : ℕ) => (70:ℚ) + (((k : ℚ) + 1) / (nChunks : ℚ)) * ((90:ℚ) - 70))).head?
            with _ | z
          · rw [hh] at hy
            simp only [Option.or, List.head?_cons, Option.mem_def, Option.some.injEq] at hy
            rw [← hy]
            norm_num
          · rw [hh] at hy
            simp only [Option.or, Option.mem_def, Option.some.injEq] at hy
            have hz := rampHead 70 ((90:ℚ) - 70) nChunks z (by rw [hh]; rfl)
            have hpos : nChunks ≠ 0 := by
              intro h0
              subst h0
              simp at hh
            rcases Nat.exists_eq_succ_of_ne_zero hpos with ⟨m, rfl⟩
            have hmle : (m : ℚ) ≤ 3 := by
              have : m ≤ 3 := by omega
              exact_mod_cast this
            have hdiv : (5:ℚ) ≤ 20 / ((m:ℚ) + 1) := by
              rw [le_div_iff₀ (by positivity)]
              linarith
            have heq : (1 / (((m+1 : ℕ) : ℚ))) * ((90:ℚ) - 70) = 20 / ((m:ℚ) + 1) := by
              push_cast
              ring
            rw [← hy, hz, heq]
            linarith
        · apply List.chain'_append.mpr
          refine ⟨rampChain 70 ((90:ℚ) - 70) (by norm_num) nChunks,
            by norm_num [List.chain'_cons], ?_⟩
          intro x hx y hy
          have hx' := rampLast 70 ((90:ℚ) - 70) nChunks x hx
          simp only [List.head?_cons, Option.mem_def, Option.some.injEq] at hy
          rw [← hy, hx']
          norm_num
      · intro x hx y hy
        have hx' := rampLast 25 ((70:ℚ) - 25) nArtists x hx
        simp only [List.head?_cons, Option.mem_def, Option.some.injEq] at hy
        rw [← hy, hx']
        norm_num
  · have hE2 : syncMainEmissions true true true true nArtists nChunks =
        (0 :: 5 :: 10 :: 15 :: 20 :: 25 ::
          (syncBaseDataEmissions true nArtists ++
            70 :: 75 :: (syncExtraDataEmissions nChunks ++ [90, 95]))) ++ [100, 100] := by
      simp [syncMainEmissions]
    rw [hE2, List.getLast?_append]
    rfl

/-- C8 counterexample: with all optional stages enabled, one artist and
five album-id chunks, the emitted progress sequence is not
non-decreasing — the stage announcement 75 is followed by the first
chunk value 74. -/
theorem c8_progress_monotonicity_counterexample :
    ¬ List.Chain' (· ≤ ·) (syncMainEmissions true true true true 1 5) := by
  have h : syncMainEmissions true true true true 1 5 =
      [0, 5, 10, 15, 20, 25, 70, 70, 75, 74, 78, 82, 86, 90, 90, 95, 100, 100] := by
    simp [syncMainEmissions, syncBaseDataEmissions, syncExtraDataEmissions]
    norm_num [List.range_succ]
  rw [h]
  simp [List.chain'_cons]
  norm_num

/-- Witness for C8: the amended monotonicity statement at one artist and
one chunk. -/
theorem c8_progress_monotonicity_witness :
    List.Chain' (· ≤ ·) (syncMainEmissions true true true true 1 1)
    ∧ (syncMainEmissions true true true true 1 1).getLast? = some 100 :=
  c8_progress_monotonicity 1 1 (by norm_num)

/-- C9: canonicalization orders the role map by the fixed role-priority
enumeration, orders the contributors of each role alphabetically by name,
places every album artist not captured by a role list into the overflow
list, and no contributor id appears both in a role mapping and in the
overflow list.  `artistsMap` is assumed id-consistent, as the map built
by `buildAlbumsMap` is (`map[artist.id] = artist`). -/
theorem c9_canonicalization (albumRaw : AlbumRaw) (artistsMap : String → Artist)
    (hmap : ∀ artistId, (artistsMap artistId).id = artistId) :
    List.Pairwise (fun e1 e2 => AlbumGroupIndex e1.1 ≤ AlbumGroupIndex e2.1)
        (buildAlbum albumRaw artistsMap).artists
    ∧ (∀ e ∈ (buildAlbum albumRaw artistsMap).artists,
        List.Pairwise (fun a1 a2 : Artist => a1.name ≤ a2.name) e.2)
    ∧ (∀ a ∈ albumRaw.albumArtists,
        (∀ e ∈ (buildAlbum albumRaw artistsMap).artists, ∀ art ∈ e.2, art.id ≠ a.id) →
        a ∈ (buildAlbum albumRaw artistsMap).otherArtists)
    ∧ (∀ a ∈ (buildAlbum albumRaw artistsMap).otherArtists,
        ∀ e ∈ (buildAlbum albumRaw artistsMap).artists, ∀ art ∈ e.2, art.id ≠ a.id) := by
  have hart : (buildAlbum albumRaw artistsMap).artists =
      (List.insertionSort (fun e1 e2 => AlbumGroupIndex e1.1 ≤ AlbumGroupIndex e2.1)
          albumRaw.artistIds).map
        (fun e => (e.1, List.insertionSort (fun a1 a2 : Artist => a1.name ≤ a2.name)
          (e.2.map artistsMap))) := rfl
  have hoth : (buildAlbum albumRaw artistsMap).otherArtists =
      albumRaw.albumArtists.filter
        (fun artist => artist.id ∉ (albumRaw.artistIds.map Prod.snd).flatten) := rfl
  have hflat : ∀ (i : String), i ∈ (albumRaw.artistIds.map Prod.snd).flatten ↔
      ∃ e ∈ albumRaw.artistIds, i ∈ e.2 := by
    intro i
    rw [List.mem_flatten]
    constructor
    · rintro ⟨ids, hids, hi⟩
      rcases List.mem_map.mp hids with ⟨e, he, rfl⟩
      exact ⟨e, he, hi⟩
    · rintro ⟨e, he, hi⟩
      exact ⟨e.2, List.mem_map.mpr ⟨e, he, rfl⟩, hi⟩
  have hmem_art : ∀ (e2 : AlbumGroup × List Artist),
      e2 ∈ (buildAlbum albumRaw artistsMap).artists →
      ∃ e ∈ albumRaw.artistIds,
        e2 = (e.1, List.insertionSort (fun a1 a2 : Artist => a1.name ≤ a2.name)
          (e.2.map artistsMap)) := by
    intro e2 he2
    rw [hart] at he2
    rcases List.mem_map.mp he2 with ⟨e, he, rfl⟩
    exact ⟨e, (List.perm_insertionSort _ albumRaw.artistIds).mem_iff.mp he, rfl⟩
  refine ⟨?_, ?_, ?_, ?_⟩
  · rw [hart, List.pairwise_map]
    exact List.sorted_insertionSort
      (fun e1 e2 => AlbumGroupIndex e1.1 ≤ AlbumGroupIndex e2.1) albumRaw.artistIds
  · intro e2 he2
    rcases hmem_art e2 he2 with ⟨e, _, rfl⟩
    exact List.sorted_insertionSort (fun a1 a2 : Artist => a1.name ≤ a2.name) (e.2.map artistsMap)
  · intro a ha hno
    rw [hoth]
    rw [List.mem_filter]
    refine ⟨ha, ?_⟩
    rw [decide_eq_true_eq]
    intro hin
    rcases (hflat a.id).mp hin with ⟨e, he, hi⟩
    have hmem : artistsMap a.id ∈
        List.insertionSort (fun a1 a2 : Artist => a1.name ≤ a2.name) (e.2.map artistsMap) :=
      (List.perm_insertionSort _ _).mem_iff.mpr (List.mem_map.mpr ⟨a.id, hi, rfl⟩)
    refine hno (e.1, List.insertionSort (fun a1 a2 : Artist => a1.name ≤ a2.name)
        (e.2.map artistsMap)) ?_ (artistsMap a.id) hmem ?_
    · rw [hart]
      exact List.mem_map.mpr ⟨e, (List.perm_insertionSort _ albumRaw.artistIds).mem_iff.mpr he, rfl⟩
    · exact hmap a.id
  · intro a ha e2 he2 art hart2
    rw [hoth, List.mem_filter] at ha
    have hnotin : a.id ∉ (albumRaw.artistIds.map Prod.snd).flatten := by
      have := ha.2
      rwa [decide_eq_true_eq] at this
    rcases hmem_art e2 he2 with ⟨e, he, rfl⟩
    have hart3 : art ∈ e.2.map artistsMap :=
      (List.perm_insertionSort _ _).mem_iff.mp hart2
    rcases List.mem_map.mp hart3 with ⟨i, hi, rfl⟩
    rw [hmap i]
    intro hcontra
    exact hnotin ((hflat a.id).mpr ⟨e, he, hcontra ▸ hi⟩)

/-- Witness for C9: the canonicalization invariants at a concrete raw
album with an id-consistent artists map. -/
theorem c9_canonicalization_witness :
    List.Pairwise (fun e1 e2 => AlbumGroupIndex e1.1 ≤ AlbumGroupIndex e2.1)
      (buildAlbum rawForBuild amapIdentity).artists :=
  (c9_canonicalization rawForBuild amapIdentity (fun _ => rfl)).1
